import Mathlib

/-!
Verification of the shard/lease/heartbeat coordination core of the
reddit-meter annotation backend, shallowly embedded from
`app/llm_annotation/annotation_worker.py` and
`app/llm_annotation/create_shards.py`.

Times are modelled as integers (minutes); Firestore documents become a
`Task` structure; the per-candidate transactional claim, the heartbeat
update, the completion update, the shard planner and the chunked worker
loop are translated as pure functions.
-/

namespace RedditMeter

/-- Task status values used by the worker and planner. -/
inductive Status where
  | PENDING
  | IN_PROGRESS
  | COMPLETED
deriving DecidableEq, Repr

/-- The persisted task document (one per shard).  Field names follow the
Firestore document written by `create_shards.py` and mutated by
`annotation_worker.py`. -/
structure Task where
  status : Status
  start_idx : Int
  end_idx : Int
  chunk_total : Nat
  chunk_done : Int
  lease_owner : Option String
  lease_expires_at : Option Int
  attempts : Nat
  updated_at : Int
deriving DecidableEq, Repr

/-- Expiry test `(d.get("lease_expires_at") is None) or
(d["lease_expires_at"] < now)` from `lease_one`. -/
def expiredAt (lease : Option Int) (now : Int) : Bool :=
  match lease with
  | none => true
  | some t => decide (t < now)

/-- The eligibility predicate of `lease_one`:
`d["status"] == "PENDING" or expired`. -/
def eligible (d : Task) (now : Int) : Bool :=
  d.status = Status.PENDING || expiredAt d.lease_expires_at now

/-- The transactional update performed by `lease_one`'s `txn` when the
fresh read `d2` is still eligible: status, lease fields, `updated_at`,
and `attempts` incremented only when the prior status was PENDING. -/
def claimWrite (d2 : Task) (worker : String) (now2 leaseMin : Int) : Task :=
  { d2 with
    status := Status.IN_PROGRESS
    lease_owner := some worker
    lease_expires_at := some (now2 + leaseMin)
    updated_at := now2
    attempts := d2.attempts + (if d2.status = Status.PENDING then 1 else 0) }

/-- One candidate of `lease_one`'s scan: the advisory snapshot `d` read
outside the transaction, the fresh read `d2` inside the transaction, and
the transaction-time clock `now2`. -/
structure Candidate where
  d : Task
  d2 : Task
  now2 : Int

/-- What `lease_one` does with one candidate: skip it when the advisory
snapshot is ineligible; otherwise run the transaction, which re-validates
eligibility on the fresh read and either writes the claim or yields
nothing. `some t` means the candidate was claimed and `t` is the written
document. -/
def tryClaim (worker : String) (leaseMin now : Int) (c : Candidate) : Option Task :=
  if eligible c.d now then
    if eligible c.d2 c.now2 then
      some (claimWrite c.d2 worker c.now2 leaseMin)
    else none
  else none

/-- The function `lease_one`: walk the scanned candidate window in order and return
the first successful claim, or `none` when no candidate is claimable. -/
def lease_one (worker : String) (leaseMin now : Int) : List Candidate → Option Task
  | [] => none
  | c :: rest =>
    match tryClaim worker leaseMin now c with
    | some t => some t
    | none => lease_one worker leaseMin now rest

/-- The function `heartbeat`: unconditional update of lease fields plus atomic
increment of `chunk_done`. -/
def heartbeat (t : Task) (worker : String) (now leaseMin inc : Int) : Task :=
  { t with
    lease_owner := some worker
    lease_expires_at := some (now + leaseMin)
    updated_at := now
    chunk_done := t.chunk_done + inc }

/-- The function `mark_completed`: set status COMPLETED and clear the lease fields. -/
def mark_completed (t : Task) (now : Int) : Task :=
  { t with
    status := Status.COMPLETED
    lease_owner := none
    lease_expires_at := none
    updated_at := now }

/-- Ceiling division `math.ceil(a / b)` for natural `a`, positive natural `b`, as used by
`create_shards.py`. -/
def ceilNat (a b : Nat) : Nat := (a + b - 1) / b

/-- Shard count `shards = math.ceil(n / SHARD_SIZE)`. -/
def shardCount (n S : Nat) : Nat := ceilNat n S

/-- The task document written for shard index `i` by `create_shards.py`:
`start = i*S`, `end = min((i+1)*S, n) - 1`,
`chunk_total = ceil((end-start+1)/C)`, status PENDING, zero progress,
null lease fields, zero attempts. -/
def mkShard (n S C : Nat) (t0 : Int) (i : Nat) : Task :=
  let start : Int := (i : Int) * S
  let e : Int := min (((i : Int) + 1) * S) (n : Int) - 1
  { status := Status.PENDING
    start_idx := start
    end_idx := e
    chunk_total := ceilNat (e - start + 1).toNat C
    chunk_done := 0
    lease_owner := none
    lease_expires_at := none
    attempts := 0
    updated_at := t0 }

/-- The full list of task documents created for a run by
`create_shards.py`'s loop `for i in range(shards)`. -/
def createShards (n S C : Nat) (t0 : Int) : List Task :=
  (List.range (shardCount n S)).map (mkShard n S C t0)

/-- The chunk loop of `main`
(`for idx in range(start_idx + chunks_done, end_idx + 1, CHUNK_SIZE)`),
projected to the successive task states produced by the per-chunk
`heartbeat` calls.  Each chunk `[idx, hi]` (`hi = min(idx + CHUNK_SIZE -
1, end_idx)`) contributes `hi - idx + 1` records, the count passed to
`heartbeat` as `inc_done`.  `times j` is the wall-clock of the `j`-th
heartbeat; `fuel` bounds the recursion (any value at least the number of
chunks is exact). -/
def processFrom (worker : String) (C : Nat) (leaseMin : Int) (times : Nat → Int)
    (e : Int) : Nat → Nat → Task → Int → List Task
  | 0, _, _, _ => []
  | fuel + 1, j, t, idx =>
    if 0 < C ∧ idx ≤ e then
      heartbeat t worker (times j) leaseMin (min (idx + (C : Int) - 1) e - idx + 1) ::
        processFrom worker C leaseMin times e fuel (j + 1)
          (heartbeat t worker (times j) leaseMin (min (idx + (C : Int) - 1) e - idx + 1))
          (idx + C)
    else []

/-- The worker's chunk loop over one claimed task, starting at
`start_idx + chunk_done`. -/
def processTask (worker : String) (C : Nat) (leaseMin : Int) (times : Nat → Int)
    (fuel : Nat) (t : Task) : List Task :=
  processFrom worker C leaseMin times t.end_idx fuel 0 t (t.start_idx + t.chunk_done)

/-- The successive values of the loop variable `idx` of `main`'s chunk
loop: the dataset index at which each processed chunk begins. -/
def chunkStarts (C : Nat) (e : Int) : Nat → Int → List Int
  | 0, _ => []
  | fuel + 1, idx =>
    if 0 < C ∧ idx ≤ e then idx :: chunkStarts C e fuel (idx + C) else []

/-- The chunk start indices processed for a claimed task: the loop runs
from `start_idx + chunk_done` to `end_idx` in steps of `CHUNK_SIZE`. -/
def taskChunkStarts (t : Task) (C : Nat) (fuel : Nat) : List Int :=
  chunkStarts C t.end_idx fuel (t.start_idx + t.chunk_done)

/-- Outcome of `main`'s per-task loop when the chunk-output store is
taken into account.  `collision` is the unhandled exception raised by
`blob.upload_from_string(..., if_generation_match=0)` when the object
for that chunk range already exists: it propagates out of the loop, so
neither `heartbeat` nor `mark_completed` runs for it. -/
inductive LoopOutcome where
  | completed (t : Task) (store : List (Int × Int))
  | collision (t : Task) (store : List (Int × Int)) (failedChunk : Int × Int)
  | outOfFuel
deriving DecidableEq, Repr

/-- The per-task loop of `main` with the object store modelled as the set of
chunk ranges already written under this task's blob prefix.  For each
chunk: the conditional (fail-if-exists) write either raises (object
exists — the exception is not caught anywhere in `main`) or writes the
object, after which `heartbeat` records the chunk; after the loop,
`mark_completed` runs. -/
def runTaskLoop (worker : String) (C : Nat) (leaseMin : Int) (times : Nat → Int)
    (e : Int) : Nat → Nat → Task → List (Int × Int) → Int → LoopOutcome
  | 0, _, _, _, _ => LoopOutcome.outOfFuel
  | fuel + 1, j, t, store, idx =>
    if 0 < C ∧ idx ≤ e then
      let hi := min (idx + (C : Int) - 1) e
      if (idx, hi) ∈ store then LoopOutcome.collision t store (idx, hi)
      else
        let t' := heartbeat t worker (times j) leaseMin (hi - idx + 1)
        runTaskLoop worker C leaseMin times e fuel (j + 1) t' ((idx, hi) :: store) (idx + C)
    else LoopOutcome.completed (mark_completed t (times j)) store

/-- Result of `generate_with_adaptive_bs`: normal return, the `raise`
re-thrown after an OOM that left the halved batch size at 1, or fuel
exhaustion of the model (the Python loop has no fuel). -/
inductive AdaptiveResult (R : Type) where
  | ok (outputs : List R)
  | raisedOOM
  | outOfFuel
deriving DecidableEq, Repr

/-- The body of `generate_with_adaptive_bs`.  `run` models one `pipe`
call on a sub-batch: `none` is a `torch.cuda.OutOfMemoryError`, `some
out` a successful generation.  State: `i` the number of prompts
consumed, `bs` the current batch size, `acc` the `outputs` list. -/
def genAdaptiveAux {P R : Type} (prompts : List P) (run : List P → Option (List R))
    (base : Nat) : Nat → Nat → Nat → List R → AdaptiveResult R
  | 0, _, _, _ => AdaptiveResult.outOfFuel
  | fuel + 1, i, bs, acc =>
    if i < prompts.length then
      let take := min bs (prompts.length - i)
      let batch := (prompts.drop i).take take
      match run batch with
      | some out =>
        let bs' := if bs < base then min base (bs * 2) else bs
        genAdaptiveAux prompts run base fuel (i + take) bs' (acc ++ out)
      | none =>
        let bs' := max 1 (bs / 2)
        if bs' = 1 then AdaptiveResult.raisedOOM
        else genAdaptiveAux prompts run base fuel i bs' acc
    else AdaptiveResult.ok acc

/-- Entry point `generate_with_adaptive_bs(pipe, prompts, base_bs, ...)`: starts at
`i = 0`, `bs = base_bs`, `outputs = []`. -/
def generateWithAdaptiveBS {P R : Type} (prompts : List P)
    (run : List P → Option (List R)) (base fuel : Nat) : AdaptiveResult R :=
  genAdaptiveAux prompts run base fuel 0 base []

/-! ### `parse_json` -/

/-- The whitespace characters stripped by Python's `str.strip()`. -/
def isWs (c : Char) : Bool :=
  c == ' ' || c == '\t' || c == '\n' || c == '\r' || c == '\x0b' || c == '\x0c'

/-- Left strip. -/
def lstrip (s : List Char) : List Char := s.dropWhile isWs

/-- Right strip. -/
def rstrip (s : List Char) : List Char := (s.reverse.dropWhile isWs).reverse

/-- Python `str.strip()`. -/
def pyStrip (s : List Char) : List Char := rstrip (lstrip s)

/-- Split on newline characters; always returns at least one (possibly
empty) line, and `n` newlines yield `n + 1` lines. -/
def splitLines : List Char → List (List Char)
  | [] => [[]]
  | c :: cs =>
    if c = '\n' then [] :: splitLines cs
    else
      match splitLines cs with
      | [] => [[c]]
      | l :: ls => (c :: l) :: ls

/-- Rejoin lines with newline characters. -/
def joinLines : List (List Char) → List Char
  | [] => []
  | [l] => l
  | l :: l2 :: ls => l ++ '\n' :: joinLines (l2 :: ls)

/-- Test that the first list is a leading segment of the second list. -/
def leadsWith : List Char → List Char → Bool
  | [], _ => true
  | _ :: _, [] => false
  | p :: ps, c :: cs => p == c && leadsWith ps cs

/-- The backtick character. -/
def btick : Char := '\x60'

/-- How many characters the pattern ```` ^```(?:json)? ```` (with
`re.IGNORECASE`) removes at the start of one line: 7 when the line
starts with three backticks followed by `json` in any case, 3 when it
starts with three backticks only, 0 otherwise. -/
def fenceHeadLen (l : List Char) : Nat :=
  if leadsWith [btick, btick, btick] l then
    match l.drop 3 with
    | j :: s :: o :: n :: _ =>
      if j.toLower == 'j' && s.toLower == 's' && o.toLower == 'o' && n.toLower == 'n' then 7
      else 3
    | _ => 3
  else 0

/-- The line ends in three backticks. -/
def endsWithTicks (l : List Char) : Bool :=
  leadsWith [btick, btick, btick] l.reverse

/-- The effect on one line of
`re.sub(r"^```(?:json)?|```$", "", t, flags=re.MULTILINE | re.IGNORECASE)`:
remove a leading fence marker, then (scanning resumes after it) a
trailing ```` ``` ````. -/
def fenceLine (l : List Char) : List Char :=
  let l1 := l.drop (fenceHeadLen l)
  if endsWithTicks l1 then l1.take (l1.length - 3) else l1

/-- The whole `re.sub` call of `parse_json`, applied line by line. -/
def subFence (s : List Char) : List Char :=
  joinLines ((splitLines s).map fenceLine)

/-- Index of the first occurrence of `c`. -/
def firstIdx (c : Char) : List Char → Option Nat
  | [] => none
  | a :: as => if a == c then some 0 else (firstIdx c as).map (· + 1)

/-- The search `re.search(r"\x7b.*\x7d", t, re.DOTALL)`: the leftmost-greedy match
runs from the first opening brace to the last closing brace, and exists
exactly when the last closing brace lies strictly after the first
opening brace. -/
def extractBraces (s : List Char) : Option (List Char) :=
  match firstIdx '\x7b' s, firstIdx '\x7d' s.reverse with
  | some i, some jr =>
    let j := s.length - 1 - jr
    if i < j then some ((s.drop i).take (j - i + 1)) else none
  | _, _ => none

/-- JSON values as produced by `json.loads` (floats are kept only as
their integer truncation, which is all `int()` observes). -/
inductive JVal where
  | jnull
  | jbool (b : Bool)
  | jnum (n : Int)
  | jstr (s : List Char)
  | jarr (xs : List JVal)
  | jobj (fields : List (List Char × JVal))

/-- Consume a run of decimal digits, accumulating their value. -/
def digitRun (acc : Nat) : List Char → Nat × List Char
  | [] => (acc, [])
  | c :: cs =>
    if c.isDigit then digitRun (acc * 10 + (c.toNat - 48)) cs else (acc, c :: cs)

/-- Parse the remainder of a JSON string literal (opening quote already
consumed), handling the single-character escapes. -/
def parseJString : List Char → Option (List Char × List Char)
  | [] => none
  | c :: cs =>
    if c == '"' then some ([], cs)
    else if c == '\\' then
      match cs with
      | [] => none
      | e :: rest =>
        let d : Option Char :=
          if e == 'n' then some '\n'
          else if e == 't' then some '\t'
          else if e == 'r' then some '\r'
          else if e == '"' then some '"'
          else if e == '\\' then some '\\'
          else if e == '/' then some '/'
          else if e == 'b' then some '\x08'
          else if e == 'f' then some '\x0c'
          else none
        match d with
        | none => none
        | some d =>
          match parseJString rest with
          | none => none
          | some (str, r) => some (d :: str, r)
    else
      match parseJString cs with
      | none => none
      | some (str, r) => some (c :: str, r)

/-- Parse a JSON number (integer, or a decimal whose fractional part is
dropped, matching the later `int()` truncation toward zero). -/
def parseNumber (s : List Char) : Option (JVal × List Char) :=
  let sgn : Bool × List Char :=
    match s with
    | c :: cs => if c == '-' then (true, cs) else (false, s)
    | [] => (false, s)
  match sgn.2 with
  | [] => none
  | c :: cs =>
    if c.isDigit then
      let pr := digitRun (c.toNat - 48) cs
      let rest : Option (List Char) :=
        match pr.2 with
        | d :: ds =>
          if d == '.' then
            match ds with
            | e :: es => if e.isDigit then some (digitRun 0 es).2 else none
            | [] => none
          else some pr.2
        | [] => some []
      match rest with
      | none => none
      | some r2 =>
        match r2 with
        | d :: _ =>
          if d == 'e' || d == 'E' then none
          else some (JVal.jnum (if sgn.1 then -(pr.1 : Int) else (pr.1 : Int)), r2)
        | [] => some (JVal.jnum (if sgn.1 then -(pr.1 : Int) else (pr.1 : Int)), [])
    else none

mutual

/-- Recursive-descent JSON value parser (`json.loads`), fueled. -/
def parseValue : Nat → List Char → Option (JVal × List Char)
  | 0, _ => none
  | fuel + 1, s =>
    match lstrip s with
    | [] => none
    | c :: cs =>
      if c == '\x7b' then
        match lstrip cs with
        | d :: ds =>
          if d == '\x7d' then some (JVal.jobj [], ds)
          else
            match parseMembers fuel (d :: ds) with
            | none => none
            | some (fs, r) => some (JVal.jobj fs, r)
        | [] => none
      else if c == '[' then
        match lstrip cs with
        | d :: ds =>
          if d == ']' then some (JVal.jarr [], ds)
          else
            match parseItems fuel (d :: ds) with
            | none => none
            | some (xs, r) => some (JVal.jarr xs, r)
        | [] => none
      else if c == '"' then
        match parseJString cs with
        | none => none
        | some (str, r) => some (JVal.jstr str, r)
      else if leadsWith "true".data (c :: cs) then some (JVal.jbool true, (c :: cs).drop 4)
      else if leadsWith "false".data (c :: cs) then some (JVal.jbool false, (c :: cs).drop 5)
      else if leadsWith "null".data (c :: cs) then some (JVal.jnull, (c :: cs).drop 4)
      else parseNumber (c :: cs)

/-- Parse the members of a JSON object (after the opening brace, at
least one member present), up to and including the closing brace. -/
def parseMembers : Nat → List Char → Option (List (List Char × JVal) × List Char)
  | 0, _ => none
  | fuel + 1, s =>
    match lstrip s with
    | c :: cs =>
      if c == '"' then
        match parseJString cs with
        | none => none
        | some (key, r1) =>
          match lstrip r1 with
          | d :: ds =>
            if d == ':' then
              match parseValue fuel ds with
              | none => none
              | some (v, r2) =>
                match lstrip r2 with
                | e :: es =>
                  if e == ',' then
                    match parseMembers fuel es with
                    | none => none
                    | some (fs, r3) => some ((key, v) :: fs, r3)
                  else if e == '\x7d' then some ([(key, v)], es)
                  else none
                | [] => none
            else none
          | [] => none
      else none
    | [] => none

/-- Parse the items of a JSON array (at least one present), up to and
including the closing bracket. -/
def parseItems : Nat → List Char → Option (List JVal × List Char)
  | 0, _ => none
  | fuel + 1, s =>
    match parseValue fuel s with
    | none => none
    | some (v, r) =>
      match lstrip r with
      | e :: es =>
        if e == ',' then
          match parseItems fuel es with
          | none => none
          | some (xs, r2) => some (v :: xs, r2)
        else if e == ']' then some ([v], es)
        else none
      | [] => none

end

/-- Decoder `json.loads`: parse one value and require only whitespace after it. -/
def jsonLoads (s : List Char) : Option JVal :=
  match parseValue (s.length + 1) s with
  | some (v, r) => if lstrip r = [] then some v else none
  | none => none

/-- The digits-only value of a string, when it is one. -/
def digitsVal (s : List Char) : Option Nat :=
  if s ≠ [] ∧ s.all Char.isDigit then
    some (s.foldl (fun a c => a * 10 + (c.toNat - 48)) 0)
  else none

/-- Python `int(str)`: optional surrounding whitespace, optional sign,
decimal digits. -/
def pyIntOfString (s : List Char) : Option Int :=
  match pyStrip s with
  | '+' :: rest => (digitsVal rest).map (fun n => (n : Int))
  | '-' :: rest => (digitsVal rest).map (fun n => -(n : Int))
  | t => (digitsVal t).map (fun n => (n : Int))

/-- Python `int(v)` on a JSON value: numbers pass through (floats
truncate), booleans become 0/1, numeric strings parse; `None`, lists and
dicts raise. -/
def pyInt : JVal → Option Int
  | JVal.jnum n => some n
  | JVal.jbool b => some (if b then 1 else 0)
  | JVal.jstr s => pyIntOfString s
  | _ => none

/-- Clamp `max(1, min(10, v))`. -/
def clampScore (v : Int) : Int := max 1 (min 10 v)

/-- Lookup `obj.get(k, default)` on a decoded JSON object: later duplicate keys
win, as in a Python dict literal. -/
def lookupLast (fields : List (List Char × JVal)) (k : List Char) : Option JVal :=
  match fields with
  | [] => none
  | (k', v) :: rest =>
    match lookupLast rest k with
    | some r => some r
    | none => if k' = k then some v else none

/-- The six clamped sentiment scores returned by `parse_json`. -/
structure Scores where
  joy : Int
  sadness : Int
  anger : Int
  fear : Int
  love : Int
  surprise : Int
deriving DecidableEq, Repr

/-- The value `max(1, min(10, int(obj.get(k, 1))))` for one key. -/
def scoreOf (fields : List (List Char × JVal)) (k : List Char) : Option Int :=
  (pyInt (match lookupLast fields k with | none => JVal.jnum 1 | some v => v)).map clampScore

/-- The loop of `parse_json` over the six sentiment keys; any `int()`
failure (or a non-object at top level) is caught and yields `none`. -/
def getScores : JVal → Option Scores
  | JVal.jobj fields =>
    match scoreOf fields "joy".data, scoreOf fields "sadness".data,
          scoreOf fields "anger".data, scoreOf fields "fear".data,
          scoreOf fields "love".data, scoreOf fields "surprise".data with
    | some j, some sa, some an, some fe, some lo, some su =>
      some ⟨j, sa, an, fe, lo, su⟩
    | _, _, _, _, _, _ => none
  | _ => none

/-- The part of `parse_json` after the fence stripping: brace-span
search, `json.loads`, key extraction with clamping. -/
def parseCore (t : List Char) : Option Scores :=
  match extractBraces t with
  | none => none
  | some span =>
    match jsonLoads span with
    | none => none
    | some v => getScores v

/-- The function `parse_json(text)`: strip, remove markdown fences, strip, search for
the brace span, decode, clamp the six scores. -/
def parse_json (s : String) : Option Scores :=
  parseCore (pyStrip (subFence (pyStrip s.data)))

/-- Wrapping a text in a markdown code fence, as model output often is. -/
def fenceWrap (s : String) : String := "```json\n" ++ s ++ "\n```"

/-- A concrete claimed task over the range [0, 39] (the first task of
the N=100, S=40 scenario) with no progress yet. -/
def sampleTask0 : Task :=
  { status := Status.IN_PROGRESS, start_idx := 0, end_idx := 39, chunk_total := 2,
    chunk_done := 0, lease_owner := some "w1", lease_expires_at := some 30,
    attempts := 1, updated_at := 0 }

/-- The same task as re-claimed after a crash that left one heartbeat
recorded (`chunk_done` 25). -/
def sampleTask25 : Task := { sampleTask0 with chunk_done := 25 }

/-! ### Theorems -/

/-- Helper: a successful transactional claim writes exactly the claim
fields of `claimWrite` on the fresh read. -/
theorem tryClaim_eq_some (worker : String) (leaseMin now : Int) (c : Candidate) (t' : Task)
    (h : tryClaim worker leaseMin now c = some t') :
    t' = claimWrite c.d2 worker c.now2 leaseMin := by
  unfold tryClaim at h
  split at h
  · split at h
    · exact (Option.some.inj h).symm
    · exact absurd h (by simp)
  · exact absurd h (by simp)

/-- Helper: a successful `lease_one` comes from a successful `tryClaim`
on one of the scanned candidates. -/
theorem lease_one_eq_some (worker : String) (leaseMin now : Int) (cs : List Candidate)
    (t' : Task) (h : lease_one worker leaseMin now cs = some t') :
    ∃ c ∈ cs, tryClaim worker leaseMin now c = some t' := by
  induction cs with
  | nil => simp [lease_one] at h
  | cons c rest ih =>
    unfold lease_one at h
    cases hc : tryClaim worker leaseMin now c with
    | some t'' =>
      rw [hc] at h
      exact ⟨c, List.mem_cons_self c rest, by simpa using hc.trans (by simpa using h)⟩
    | none =>
      rw [hc] at h
      obtain ⟨c', hmem, hclaim⟩ := ih h
      exact ⟨c', List.mem_cons_of_mem c hmem, hclaim⟩

/-- C1: a task that is IN_PROGRESS with an unexpired lease at both the
advisory scan read and the transactional re-read is never claimed by a
worker other than the lease owner: the candidate yields no write and
`lease_one` behaves as if the candidate were absent (moves on to the
next candidate or returns `none`). -/
theorem C1_live_lease_not_reclaimed (worker w : String) (leaseMin now : Int)
    (c : Candidate) (t1 t2 : Int)
    (hs : c.d.status = Status.IN_PROGRESS)
    (hl : c.d.lease_expires_at = some t1) (hfut : now < t1)
    (howner : c.d.lease_owner = some w) (hw : w ≠ worker)
    (hs2 : c.d2.status = Status.IN_PROGRESS)
    (hl2 : c.d2.lease_expires_at = some t2) (hfut2 : c.now2 < t2) :
    tryClaim worker leaseMin now c = none ∧
    ∀ rest, lease_one worker leaseMin now (c :: rest) = lease_one worker leaseMin now rest := by
  have he : eligible c.d now = false := by
    simp only [eligible, expiredAt, hs, hl, Bool.or_eq_false_iff, decide_eq_false_iff_not]
    exact ⟨by simp, by omega⟩
  refine ⟨by simp [tryClaim, he], fun rest => ?_⟩
  rw [lease_one]
  simp [tryClaim, he]

/-- C1 witness: a concrete IN_PROGRESS task leased by worker "w1" until
time 100 is not claimed by worker "w2" at time 50. -/
theorem C1_live_lease_not_reclaimed_witness :
    tryClaim "w2" 30 50
      { d := { status := Status.IN_PROGRESS, start_idx := 0, end_idx := 39, chunk_total := 2,
               chunk_done := 0, lease_owner := some "w1", lease_expires_at := some 100,
               attempts := 1, updated_at := 50 },
        d2 := { status := Status.IN_PROGRESS, start_idx := 0, end_idx := 39, chunk_total := 2,
                chunk_done := 0, lease_owner := some "w1", lease_expires_at := some 100,
                attempts := 1, updated_at := 50 },
        now2 := 51 } = none :=
  (C1_live_lease_not_reclaimed "w2" "w1" 30 50 _ 100 100 rfl rfl (by decide) rfl
    (by decide) rfl rfl (by decide)).1

/-- C7: every successful `lease_one` claim writes exactly
status IN_PROGRESS, lease_owner = worker, lease_expires_at = now +
LEASE_MINUTES, updated_at = now on the claimed task (`now` being the
transaction clock), keeps the range and progress fields, and increments
`attempts` by one exactly when the status seen by the transactional
re-read was PENDING. -/
theorem C7_claim_write_fields (worker : String) (leaseMin now : Int) (cs : List Candidate)
    (t' : Task) (h : lease_one worker leaseMin now cs = some t') :
    ∃ c ∈ cs, tryClaim worker leaseMin now c = some t' ∧
      t'.status = Status.IN_PROGRESS ∧
      t'.lease_owner = some worker ∧
      t'.lease_expires_at = some (c.now2 + leaseMin) ∧
      t'.updated_at = c.now2 ∧
      (t'.attempts = c.d2.attempts + 1 ↔ c.d2.status = Status.PENDING) ∧
      (c.d2.status ≠ Status.PENDING → t'.attempts = c.d2.attempts) ∧
      t'.start_idx = c.d2.start_idx ∧ t'.end_idx = c.d2.end_idx ∧
      t'.chunk_done = c.d2.chunk_done ∧ t'.chunk_total = c.d2.chunk_total := by
  obtain ⟨c, hmem, hclaim⟩ := lease_one_eq_some worker leaseMin now cs t' h
  have hw := tryClaim_eq_some worker leaseMin now c t' hclaim
  subst hw
  refine ⟨c, hmem, hclaim, ?_⟩
  by_cases hp : c.d2.status = Status.PENDING <;>
    simp [claimWrite, hp]

/-- C7 witness: claiming a concrete PENDING task writes the claim fields
and increments attempts from 0 to 1. -/
theorem C7_claim_write_fields_witness :
    ∃ c ∈ [({ d := { status := Status.PENDING, start_idx := 0, end_idx := 39, chunk_total := 2,
                     chunk_done := 0, lease_owner := none, lease_expires_at := none,
                     attempts := 0, updated_at := 0 },
              d2 := { status := Status.PENDING, start_idx := 0, end_idx := 39, chunk_total := 2,
                      chunk_done := 0, lease_owner := none, lease_expires_at := none,
                      attempts := 0, updated_at := 0 },
              now2 := 7 } : Candidate)],
      tryClaim "w1" 30 5 c =
        some { status := Status.IN_PROGRESS, start_idx := 0, end_idx := 39, chunk_total := 2,
               chunk_done := 0, lease_owner := some "w1", lease_expires_at := some 37,
               attempts := 1, updated_at := 7 } ∧
      ({ status := Status.IN_PROGRESS, start_idx := 0, end_idx := 39, chunk_total := 2,
         chunk_done := 0, lease_owner := some "w1", lease_expires_at := some 37,
         attempts := 1, updated_at := 7 } : Task).status = Status.IN_PROGRESS ∧
      ({ status := Status.IN_PROGRESS, start_idx := 0, end_idx := 39, chunk_total := 2,
         chunk_done := 0, lease_owner := some "w1", lease_expires_at := some 37,
         attempts := 1, updated_at := 7 } : Task).lease_owner = some "w1" ∧
      ({ status := Status.IN_PROGRESS, start_idx := 0, end_idx := 39, chunk_total := 2,
         chunk_done := 0, lease_owner := some "w1", lease_expires_at := some 37,
         attempts := 1, updated_at := 7 } : Task).lease_expires_at = some (c.now2 + 30) ∧
      ({ status := Status.IN_PROGRESS, start_idx := 0, end_idx := 39, chunk_total := 2,
         chunk_done := 0, lease_owner := some "w1", lease_expires_at := some 37,
         attempts := 1, updated_at := 7 } : Task).updated_at = c.now2 ∧
      (({ status := Status.IN_PROGRESS, start_idx := 0, end_idx := 39, chunk_total := 2,
          chunk_done := 0, lease_owner := some "w1", lease_expires_at := some 37,
          attempts := 1, updated_at := 7 } : Task).attempts = c.d2.attempts + 1 ↔
        c.d2.status = Status.PENDING) ∧
      (c.d2.status ≠ Status.PENDING →
        ({ status := Status.IN_PROGRESS, start_idx := 0, end_idx := 39, chunk_total := 2,
           chunk_done := 0, lease_owner := some "w1", lease_expires_at := some 37,
           attempts := 1, updated_at := 7 } : Task).attempts = c.d2.attempts) ∧
      ({ status := Status.IN_PROGRESS, start_idx := 0, end_idx := 39, chunk_total := 2,
         chunk_done := 0, lease_owner := some "w1", lease_expires_at := some 37,
         attempts := 1, updated_at := 7 } : Task).start_idx = c.d2.start_idx ∧
      ({ status := Status.IN_PROGRESS, start_idx := 0, end_idx := 39, chunk_total := 2,
         chunk_done := 0, lease_owner := some "w1", lease_expires_at := some 37,
         attempts := 1, updated_at := 7 } : Task).end_idx = c.d2.end_idx ∧
      ({ status := Status.IN_PROGRESS, start_idx := 0, end_idx := 39, chunk_total := 2,
         chunk_done := 0, lease_owner := some "w1", lease_expires_at := some 37,
         attempts := 1, updated_at := 7 } : Task).chunk_done = c.d2.chunk_done ∧
      ({ status := Status.IN_PROGRESS, start_idx := 0, end_idx := 39, chunk_total := 2,
         chunk_done := 0, lease_owner := some "w1", lease_expires_at := some 37,
         attempts := 1, updated_at := 7 } : Task).chunk_total = c.d2.chunk_total :=
  C7_claim_write_fields "w1" 30 5 _ _ (by decide)

/-- Helper: a shard index below the shard count starts strictly inside
the dataset. -/
theorem shard_start_lt (n S i : Nat) (hS : 0 < S) (h : i < shardCount n S) :
    i * S < n := by
  unfold shardCount ceilNat at h
  have h2 : (i + 1) * S ≤ n + S - 1 := (Nat.le_div_iff_mul_le hS).mp h
  rw [Nat.succ_mul] at h2
  generalize i * S = k at h2 ⊢
  omega

/-- Helper: every dataset index lies in the shard numbered by its
quotient. -/
theorem div_lt_shardCount (n S x : Nat) (hS : 0 < S) (h : x < n) :
    x / S < shardCount n S := by
  unfold shardCount ceilNat
  have h1 : x / S ≤ (n - 1) / S := Nat.div_le_div_right (by omega)
  have h2 : (n - 1) / S < (n - 1 + S) / S := by
    rw [Nat.add_div_right _ hS]; omega
  have h3 : n - 1 + S = n + S - 1 := by omega
  rw [h3] at h2
  exact Nat.lt_of_le_of_lt h1 h2

/-- Helper: a dataset index is below the end of its own shard. -/
theorem lt_div_succ_mul (S x : Nat) (hS : 0 < S) : x < (x / S + 1) * S := by
  rw [Nat.succ_mul]
  have h := Nat.div_add_mod x S
  have h2 := Nat.mod_lt x hS
  rw [Nat.mul_comm] at h
  generalize x / S * S = q at h ⊢
  omega

/-- Helper: two distinct shards cannot both contain an index (one-sided
version). -/
theorem shards_sep (S : Nat) (i j : Nat) (hij : i < j) (x : Int)
    (hxi : x ≤ ((i : Int) + 1) * (S : Int) - 1) (hxj : (j : Int) * (S : Int) ≤ x) :
    False := by
  have h1 : ((i : Int) + 1) * (S : Int) ≤ (j : Int) * (S : Int) := by
    have hj : ((i : Int) + 1) ≤ (j : Int) := by exact_mod_cast hij
    exact mul_le_mul_of_nonneg_right hj (by positivity)
  linarith

/-- C2: for dataset length N, shard size S > 0 and chunk size C > 0, the
planner creates exactly ceil(N/S) tasks; task i has start = i·S, end =
min((i+1)·S, N) − 1, chunk_total = ceil((end − start + 1)/C), status
PENDING, zero progress and attempts, and null lease fields; the ranges
are pairwise disjoint and cover exactly [0, N); and N = 0 creates zero
tasks. -/
theorem C2_planner (n S C : Nat) (t0 : Int) (hS : 0 < S) (hC : 0 < C) :
    (createShards n S C t0).length = shardCount n S ∧
    (∀ i, i < shardCount n S → (createShards n S C t0)[i]? = some (mkShard n S C t0 i)) ∧
    (∀ i, i < shardCount n S →
      (mkShard n S C t0 i).status = Status.PENDING ∧
      (mkShard n S C t0 i).start_idx = (i : Int) * (S : Int) ∧
      (mkShard n S C t0 i).end_idx = min (((i : Int) + 1) * (S : Int)) (n : Int) - 1 ∧
      (mkShard n S C t0 i).chunk_total = ceilNat (min ((i + 1) * S) n - i * S) C ∧
      (mkShard n S C t0 i).chunk_done = 0 ∧
      (mkShard n S C t0 i).attempts = 0 ∧
      (mkShard n S C t0 i).lease_owner = none ∧
      (mkShard n S C t0 i).lease_expires_at = none) ∧
    (∀ i j, i < shardCount n S → j < shardCount n S → i ≠ j → ∀ x : Int,
      ¬((mkShard n S C t0 i).start_idx ≤ x ∧ x ≤ (mkShard n S C t0 i).end_idx ∧
        (mkShard n S C t0 j).start_idx ≤ x ∧ x ≤ (mkShard n S C t0 j).end_idx)) ∧
    (∀ x : Int, (0 ≤ x ∧ x < (n : Int)) ↔
      (∃ i, i < shardCount n S ∧
        (mkShard n S C t0 i).start_idx ≤ x ∧ x ≤ (mkShard n S C t0 i).end_idx)) ∧
    (n = 0 → createShards n S C t0 = []) := by
  have hstart : ∀ i : Nat, (mkShard n S C t0 i).start_idx = (i : Int) * (S : Int) :=
    fun i => rfl
  have hend : ∀ i : Nat,
      (mkShard n S C t0 i).end_idx = min (((i : Int) + 1) * (S : Int)) (n : Int) - 1 :=
    fun i => rfl
  refine ⟨by simp [createShards], ?_, ?_, ?_, ?_, ?_⟩
  · intro i hi
    simp [createShards, List.getElem?_map, List.getElem?_range hi]
  · intro i hi
    have hlt : i * S < n := shard_start_lt n S i hS hi
    refine ⟨rfl, rfl, rfl, ?_, rfl, rfl, rfl, rfl⟩
    show ceilNat (min (((i : Int) + 1) * (S : Int)) (n : Int) - 1 -
        (i : Int) * (S : Int) + 1).toNat C = ceilNat (min ((i + 1) * S) n - i * S) C
    congr 1
    have hmin : min (((i : Int) + 1) * (S : Int)) (n : Int) = ((min ((i + 1) * S) n : Nat) : Int) := by
      push_cast
      rfl
    rw [hmin, show (i : Int) * (S : Int) = ((i * S : Nat) : Int) by push_cast; ring]
    have hle : i * S ≤ min ((i + 1) * S) n := by
      refine le_min ?_ (by omega)
      exact Nat.mul_le_mul_right S (by omega)
    generalize min ((i + 1) * S) n = b at hle ⊢
    generalize i * S = a at hle ⊢
    omega
  · intro i j hi hj hij x hx
    rw [hstart i, hend i, hstart j, hend j] at hx
    obtain ⟨h1, h2, h3, h4⟩ := hx
    rcases Nat.lt_or_ge i j with hlt | hge
    · exact shards_sep S i j hlt x (le_trans h2 (by simp [min_le_left])) h3
    · have hlt : j < i := by omega
      exact shards_sep S j i hlt x (le_trans h4 (by simp [min_le_left])) h1
  · intro x
    constructor
    · rintro ⟨hx0, hxn⟩
      set xn := x.toNat with hxn_def
      have hx : x = (xn : Int) := (Int.toNat_of_nonneg hx0).symm
      have hxnn : xn < n := by omega
      refine ⟨xn / S, div_lt_shardCount n S xn hS hxnn, ?_, ?_⟩
      · rw [hstart, hx]
        exact_mod_cast Nat.div_mul_le_self xn S
      · rw [hend]
        have hb : ((xn : Int)) < ((xn / S : Nat) + 1) * (S : Int) := by
          exact_mod_cast lt_div_succ_mul S xn hS
        rw [le_sub_iff_add_le, le_min_iff]
        constructor
        · rw [hx]
          linarith
        · omega
    · rintro ⟨i, hi, hxi, hxe⟩
      rw [hstart] at hxi
      rw [hend] at hxe
      have h0 : (0 : Int) ≤ (i : Int) * (S : Int) := by positivity
      have hn : x ≤ (n : Int) - 1 := le_trans hxe (by simp [min_le_right])
      constructor
      · linarith
      · linarith
  · intro h
    subst h
    simp [createShards, shardCount, ceilNat, Nat.div_eq_of_lt (by omega : S - 1 < S)]

/-- C2 witness: the planner hypotheses hold at N = 100, S = 40, C = 25
and the task count is ceil(100/40) = 3. -/
theorem C2_planner_witness :
    (createShards 100 40 25 0).length = shardCount 100 40 :=
  (C2_planner 100 40 25 0 (by decide) (by decide)).1

/-- Helper: invariant of the chunk loop.  If the running task's
progress counter is at most `idx - start_idx` and at most the range
length bound, then every state produced by the loop keeps the same
`start_idx`, stays within the range-length bound, and the heartbeat
sequence is non-decreasing. -/
theorem processFrom_invariant (worker : String) (C : Nat) (leaseMin : Int)
    (times : Nat → Int) (e : Int) (hC : 0 < C) :
    ∀ (fuel j : Nat) (t : Task) (idx : Int),
      t.chunk_done ≤ idx - t.start_idx →
      t.chunk_done ≤ e - t.start_idx + 1 →
      (∀ s ∈ processFrom worker C leaseMin times e fuel j t idx,
        s.start_idx = t.start_idx ∧ s.chunk_done ≤ e - t.start_idx + 1) ∧
      List.Chain' (fun a b => a.chunk_done ≤ b.chunk_done)
        (t :: processFrom worker C leaseMin times e fuel j t idx) := by
  intro fuel
  induction fuel with
  | zero => intro j t idx h1 h2; simp [processFrom]
  | succ fuel ih =>
    intro j t idx h1 h2
    rw [processFrom]
    by_cases hcond : 0 < C ∧ idx ≤ e
    · rw [if_pos hcond]
      set hi := min (idx + (C : Int) - 1) e with hhi
      set t' := heartbeat t worker (times j) leaseMin (hi - idx + 1) with ht'
      have hhi2 : hi ≤ e := min_le_right _ _
      have hhi3 : idx ≤ hi := by
        refine le_min ?_ hcond.2
        have : (1 : Int) ≤ (C : Int) := by exact_mod_cast hC
        omega
      have hst : t'.start_idx = t.start_idx := by simp [ht', heartbeat]
      have hcd : t'.chunk_done = t.chunk_done + (hi - idx + 1) := by simp [ht', heartbeat]
      have h1' : t'.chunk_done ≤ (idx + C) - t'.start_idx := by
        have hhi1 : hi ≤ idx + (C : Int) - 1 := min_le_left _ _
        rw [hcd, hst]; omega
      have h2' : t'.chunk_done ≤ e - t'.start_idx + 1 := by
        rw [hcd, hst]; omega
      obtain ⟨hmem, hchain⟩ := ih (j + 1) t' (idx + C) h1' h2'
      refine ⟨?_, ?_⟩
      · intro s hs
        rcases List.mem_cons.mp hs with hs | hs
        · subst hs; exact ⟨hst, by rw [hst] at h2'; exact h2'⟩
        · obtain ⟨hs1, hs2⟩ := hmem s hs
          rw [hst] at hs1 hs2
          exact ⟨hs1, hs2⟩
      · rw [List.chain'_cons]
        exact ⟨by rw [hcd]; omega, hchain⟩
    · rw [if_neg hcond]
      simp only [List.not_mem_nil, false_implies, implies_true, true_and]
      exact List.chain'_singleton t

/-- C3: along any worker-loop run over a claimed task whose progress
counter starts within the range length, the `heartbeat` sequence never
decreases `chunk_done` (each increment is the record count of a written
chunk) and `chunk_done` never exceeds the range length
`end_idx - start_idx + 1`. -/
theorem C3_chunk_done_monotone_bounded (worker : String) (C : Nat) (leaseMin : Int)
    (times : Nat → Int) (fuel : Nat) (t : Task) (hC : 0 < C)
    (hk : t.chunk_done ≤ t.end_idx - t.start_idx + 1) :
    (∀ s ∈ processTask worker C leaseMin times fuel t,
      s.chunk_done ≤ t.end_idx - t.start_idx + 1) ∧
    List.Chain' (fun a b => a.chunk_done ≤ b.chunk_done)
      (t :: processTask worker C leaseMin times fuel t) := by
  have h := processFrom_invariant worker C leaseMin times t.end_idx hC fuel 0 t
    (t.start_idx + t.chunk_done) (by omega) hk
  exact ⟨fun s hs => (h.1 s hs).2, h.2⟩

/-- C3 witness: the concrete run over the task [0, 39] with chunk size
25 heartbeats `chunk_done` through 25 and 40, monotone and within the
range length 40. -/
theorem C3_chunk_done_witness :
    (∀ s ∈ processTask "w1" 25 30 (fun j => (j : Int)) 5 sampleTask0,
      s.chunk_done ≤ sampleTask0.end_idx - sampleTask0.start_idx + 1) ∧
    List.Chain' (fun a b => a.chunk_done ≤ b.chunk_done)
      (sampleTask0 :: processTask "w1" 25 30 (fun j => (j : Int)) 5 sampleTask0) :=
  C3_chunk_done_monotone_bounded "w1" 25 30 (fun j => (j : Int)) 5 sampleTask0
    (by decide) (by decide)

/-- Helper: every chunk start produced by the loop lies between the loop
entry index and the task end. -/
theorem chunkStarts_bounds (C : Nat) (e : Int) :
    ∀ (fuel : Nat) (idx : Int), ∀ s ∈ chunkStarts C e fuel idx, idx ≤ s ∧ s ≤ e := by
  intro fuel
  induction fuel with
  | zero => intro idx s hs; simp [chunkStarts] at hs
  | succ fuel ih =>
    intro idx s hs
    rw [chunkStarts] at hs
    by_cases hcond : 0 < C ∧ idx ≤ e
    · rw [if_pos hcond] at hs
      rcases List.mem_cons.mp hs with hs | hs
      · subst hs; exact ⟨le_refl _, hcond.2⟩
      · obtain ⟨h1, h2⟩ := ih (idx + C) s hs
        have : (0 : Int) ≤ (C : Int) := by positivity
        exact ⟨by omega, h2⟩
    · rw [if_neg hcond] at hs; simp at hs

/-- C6: a worker claiming a task with `chunk_done = k` begins at dataset
index `start_idx + k` (not `start_idx`) and all processed chunk starts
stay within the remaining range up to `end_idx`; concretely, N=100,
S=40, C=25 yields three tasks with ranges [0,39], [40,79], [80,99] and
chunk_total 2, 2, 1, and a worker re-claiming the first task with
`chunk_done = 25` starts at index 25 (a fresh claim would start at 0 and
25). -/
theorem C6_resume_at_chunk_done :
    (∀ (t : Task) (C fuel : Nat), 0 < C → 0 < fuel →
      t.start_idx + t.chunk_done ≤ t.end_idx →
      (taskChunkStarts t C fuel).head? = some (t.start_idx + t.chunk_done) ∧
      ∀ s ∈ taskChunkStarts t C fuel, t.start_idx + t.chunk_done ≤ s ∧ s ≤ t.end_idx) ∧
    createShards 100 40 25 0 =
      [{ status := Status.PENDING, start_idx := 0, end_idx := 39, chunk_total := 2,
         chunk_done := 0, lease_owner := none, lease_expires_at := none,
         attempts := 0, updated_at := 0 },
       { status := Status.PENDING, start_idx := 40, end_idx := 79, chunk_total := 2,
         chunk_done := 0, lease_owner := none, lease_expires_at := none,
         attempts := 0, updated_at := 0 },
       { status := Status.PENDING, start_idx := 80, end_idx := 99, chunk_total := 1,
         chunk_done := 0, lease_owner := none, lease_expires_at := none,
         attempts := 0, updated_at := 0 }] ∧
    taskChunkStarts sampleTask25 25 10 = [25] ∧
    taskChunkStarts sampleTask0 25 10 = [0, 25] := by
  refine ⟨?_, by decide, by decide, by decide⟩
  intro t C fuel hC hfuel hle
  constructor
  · rcases fuel with _ | fuel
    · omega
    · rw [taskChunkStarts, chunkStarts, if_pos ⟨hC, hle⟩]
      rfl
  · intro s hs
    exact chunkStarts_bounds C t.end_idx fuel (t.start_idx + t.chunk_done) s hs

/-- C6 witness: the re-claimed task with `chunk_done = 25` has its first
chunk start at `start_idx + chunk_done = 25`. -/
theorem C6_resume_witness :
    (taskChunkStarts sampleTask25 25 10).head? =
      some (sampleTask25.start_idx + sampleTask25.chunk_done) :=
  (C6_resume_at_chunk_done.1 sampleTask25 25 10 (by decide) (by decide) (by decide)).1

/-- Helper: splitting a string into lines never yields an empty list. -/
theorem splitLines_ne_nil (s : List Char) : splitLines s ≠ [] := by
  induction s with
  | nil => simp [splitLines]
  | cons c cs ih =>
    rw [splitLines]
    by_cases hc : c = '\n'
    · simp [hc]
    · rw [if_neg hc]
      cases h : splitLines cs with
      | nil => simp
      | cons l ls => simp

/-- Helper: lines of a concatenation around an explicit newline. -/
theorem splitLines_append (xs ys : List Char) :
    splitLines (xs ++ '\n' :: ys) = splitLines xs ++ splitLines ys := by
  induction xs with
  | nil => simp [splitLines]
  | cons c cs ih =>
    by_cases hc : c = '\n'
    · subst hc
      rw [List.cons_append, splitLines, if_pos rfl, ih, splitLines, if_pos rfl,
        List.cons_append]
    · rw [List.cons_append, splitLines, if_neg hc, ih, splitLines, if_neg hc]
      cases h : splitLines cs with
      | nil => exact absurd h (splitLines_ne_nil cs)
      | cons l ls => simp

/-- Helper: joining the split lines restores the string. -/
theorem joinLines_splitLines (s : List Char) : joinLines (splitLines s) = s := by
  induction s with
  | nil => rfl
  | cons c cs ih =>
    rw [splitLines]
    by_cases hc : c = '\n'
    · subst hc
      rw [if_pos rfl]
      cases h : splitLines cs with
      | nil => exact absurd h (splitLines_ne_nil cs)
      | cons l ls =>
        rw [h] at ih
        rw [joinLines, ih]
        rfl
    · rw [if_neg hc]
      cases h : splitLines cs with
      | nil => exact absurd h (splitLines_ne_nil cs)
      | cons l ls =>
        rw [h] at ih
        cases ls with
        | nil =>
          rw [joinLines] at ih
          rw [joinLines, ih]
        | cons l2 ls2 =>
          rw [joinLines] at ih
          rw [joinLines, List.cons_append, ih]

/-- Helper: characters of any line come from the split string. -/
theorem mem_splitLines (s : List Char) :
    ∀ l ∈ splitLines s, ∀ c ∈ l, c ∈ s := by
  induction s with
  | nil =>
    intro l hl c hc
    simp [splitLines] at hl
    subst hl
    simp at hc
  | cons a as ih =>
    intro l hl c hc
    rw [splitLines] at hl
    by_cases ha : a = '\n'
    · rw [if_pos ha] at hl
      rcases List.mem_cons.mp hl with h | h
      · subst h; simp at hc
      · exact List.mem_cons_of_mem a (ih l h c hc)
    · rw [if_neg ha] at hl
      cases hsp : splitLines as with
      | nil => exact absurd hsp (splitLines_ne_nil as)
      | cons l0 ls =>
        rw [hsp] at hl
        rcases List.mem_cons.mp hl with h | h
        · subst h
          rcases List.mem_cons.mp hc with h2 | h2
          · exact List.mem_cons.mpr (Or.inl h2)
          · refine List.mem_cons_of_mem a (ih l0 ?_ c h2)
            rw [hsp]; exact List.mem_cons_self l0 ls
        · refine List.mem_cons_of_mem a (ih l ?_ c hc)
          rw [hsp]; exact List.mem_cons_of_mem l0 h

/-- Helper: characters of a joined line list are newlines or line
characters. -/
theorem mem_joinLines (ls : List (List Char)) (c : Char) (h : c ∈ joinLines ls) :
    c = '\n' ∨ ∃ l ∈ ls, c ∈ l := by
  induction ls with
  | nil => simp [joinLines] at h
  | cons l ls ih =>
    cases ls with
    | nil =>
      right
      exact ⟨l, List.mem_cons_self l [], by simpa [joinLines] using h⟩
    | cons l2 ls2 =>
      rw [joinLines] at h
      rcases List.mem_append.mp h with h | h
      · right; exact ⟨l, List.mem_cons_self _ _, h⟩
      · rcases List.mem_cons.mp h with h | h
        · left; exact h
        · rcases ih h with h | ⟨l', hl', hc⟩
          · left; exact h
          · right; exact ⟨l', List.mem_cons_of_mem l hl', hc⟩

/-- Helper: a matched pattern head occurs in the matched list. -/
theorem leadsWith_head_mem (p : Char) (ps l : List Char)
    (h : leadsWith (p :: ps) l = true) : p ∈ l := by
  cases l with
  | nil => simp [leadsWith] at h
  | cons c cs =>
    rw [leadsWith, Bool.and_eq_true] at h
    have : p = c := by simpa using h.1
    subst this
    exact List.mem_cons_self p cs

/-- Helper: the fence `re.sub` leaves a backtick-free line unchanged. -/
theorem fenceLine_no_btick (l : List Char) (h : btick ∉ l) : fenceLine l = l := by
  have hp : fenceHeadLen l = 0 := by
    rw [fenceHeadLen]
    cases hl : leadsWith [btick, btick, btick] l with
    | false => simp
    | true => exact absurd (leadsWith_head_mem _ _ _ hl) h
  have hs : endsWithTicks l = false := by
    rw [endsWithTicks]
    cases hl : leadsWith [btick, btick, btick] l.reverse with
    | false => rfl
    | true => exact absurd (List.mem_reverse.mp (leadsWith_head_mem _ _ _ hl)) h
  rw [fenceLine, hp]
  simp [List.drop_zero, hs]

/-- Helper: the fence `re.sub` only removes characters. -/
theorem mem_fenceLine (l : List Char) (c : Char) (h : c ∈ fenceLine l) : c ∈ l := by
  rw [fenceLine] at h
  split at h
  · exact List.mem_of_mem_drop (List.mem_of_mem_take h)
  · exact List.mem_of_mem_drop h

/-- Helper: the whole fence `re.sub` leaves a backtick-free text
unchanged. -/
theorem subFence_no_btick (s : List Char) (h : btick ∉ s) : subFence s = s := by
  rw [subFence]
  have hmap : (splitLines s).map fenceLine = (splitLines s).map id := by
    refine List.map_congr_left (fun l hl => ?_)
    exact fenceLine_no_btick l (fun hc => h (mem_splitLines s l hl btick hc))
  rw [hmap, List.map_id, joinLines_splitLines]

/-- Helper: the fence `re.sub` introduces no character but newlines. -/
theorem mem_subFence (s : List Char) (c : Char) (h : c ∈ subFence s) :
    c = '\n' ∨ c ∈ s := by
  rcases mem_joinLines _ c h with h | ⟨l, hl, hc⟩
  · left; exact h
  · right
    obtain ⟨l0, hl0, rfl⟩ := List.mem_map.mp hl
    exact mem_splitLines s l0 hl0 c (mem_fenceLine l0 c hc)

/-- Helper: left strip drops a leading whitespace character. -/
theorem lstrip_cons_of_ws (c : Char) (s : List Char) (h : isWs c = true) :
    lstrip (c :: s) = lstrip s := by
  simp [lstrip, List.dropWhile_cons, h]

/-- Helper: left strip keeps a non-whitespace head. -/
theorem lstrip_cons_of_not_ws (c : Char) (s : List Char) (h : isWs c = false) :
    lstrip (c :: s) = c :: s := by
  simp [lstrip, List.dropWhile_cons, h]

/-- Helper: right strip drops a trailing whitespace character. -/
theorem rstrip_concat_of_ws (c : Char) (s : List Char) (h : isWs c = true) :
    rstrip (s ++ [c]) = rstrip s := by
  simp [rstrip, List.reverse_append, List.dropWhile_cons, h]

/-- Helper: right strip keeps a non-whitespace last character. -/
theorem rstrip_concat_of_not_ws (c : Char) (s : List Char) (h : isWs c = false) :
    rstrip (s ++ [c]) = s ++ [c] := by
  simp [rstrip, List.reverse_append, List.dropWhile_cons, h]

/-- Helper: right strip commutes with a non-whitespace head. -/
theorem rstrip_cons_of_not_ws (c : Char) (s : List Char) (h : isWs c = false) :
    rstrip (c :: s) = c :: rstrip s := by
  rw [rstrip, List.reverse_cons, List.dropWhile_append]
  cases hd : s.reverse.dropWhile isWs with
  | nil => simp [hd, List.dropWhile_cons, h, rstrip]
  | cons d ds => simp [hd, List.dropWhile_cons, h, rstrip]

/-- Helper: strip drops a leading whitespace character. -/
theorem pyStrip_cons_of_ws (c : Char) (s : List Char) (h : isWs c = true) :
    pyStrip (c :: s) = pyStrip s := by
  rw [pyStrip, lstrip_cons_of_ws c s h]; rfl

/-- Helper: strip drops a trailing whitespace character. -/
theorem pyStrip_concat_of_ws (c : Char) (s : List Char) (h : isWs c = true) :
    pyStrip (s ++ [c]) = pyStrip s := by
  induction s with
  | nil => simp [pyStrip, lstrip, List.dropWhile_cons, h, rstrip]
  | cons a as ih =>
    by_cases ha : isWs a = true
    · rw [List.cons_append, pyStrip_cons_of_ws a _ ha, pyStrip_cons_of_ws a as ha, ih]
    · have ha' : isWs a = false := by simpa using ha
      rw [List.cons_append, pyStrip, lstrip_cons_of_not_ws a _ ha', pyStrip,
        lstrip_cons_of_not_ws a as ha',
        show a :: (as ++ [c]) = (a :: as) ++ [c] from rfl,
        rstrip_concat_of_ws c _ h]

/-- Helper: left strip is idempotent. -/
theorem lstrip_idem (s : List Char) : lstrip (lstrip s) = lstrip s := by
  induction s with
  | nil => rfl
  | cons a as ih =>
    by_cases ha : isWs a = true
    · rw [lstrip_cons_of_ws a as ha]; exact ih
    · have ha' : isWs a = false := by simpa using ha
      rw [lstrip_cons_of_not_ws a as ha', lstrip_cons_of_not_ws a as ha']

/-- Helper: dropWhile is idempotent. -/
theorem dropWhile_ws_idem (l : List Char) :
    (l.dropWhile isWs).dropWhile isWs = l.dropWhile isWs := by
  induction l with
  | nil => rfl
  | cons a as ih =>
    by_cases ha : isWs a = true
    · simp [List.dropWhile_cons, ha, ih]
    · simp [List.dropWhile_cons, ha]

/-- Helper: right strip is idempotent. -/
theorem rstrip_idem (s : List Char) : rstrip (rstrip s) = rstrip s := by
  rw [rstrip, rstrip, List.reverse_reverse, dropWhile_ws_idem]

/-- Helper: left strip fixes a right-stripped left-stripped string. -/
theorem lstrip_rstrip (u : List Char) (hu : lstrip u = u) :
    lstrip (rstrip u) = rstrip u := by
  cases u with
  | nil => rfl
  | cons a u' =>
    have ha : isWs a = false := by
      by_contra hcon
      have ha' : isWs a = true := by simpa using hcon
      have h1 : lstrip (a :: u') = lstrip u' := lstrip_cons_of_ws a u' ha'
      have h2 : (lstrip u').length ≤ u'.length := (List.dropWhile_sublist _).length_le
      rw [hu] at h1
      have : (a :: u').length = (lstrip u').length := by rw [h1]
      simp at this
      omega
    rw [rstrip_cons_of_not_ws a u' ha, lstrip_cons_of_not_ws _ _ ha]

/-- Helper: Python strip is idempotent. -/
theorem pyStrip_idem (s : List Char) : pyStrip (pyStrip s) = pyStrip s := by
  rw [pyStrip, pyStrip, lstrip_rstrip (lstrip s) (lstrip_idem s), rstrip_idem]

/-- Helper: left strip only removes characters. -/
theorem mem_lstrip (s : List Char) (c : Char) (h : c ∈ lstrip s) : c ∈ s :=
  (List.dropWhile_sublist _).mem h

/-- Helper: right strip only removes characters. -/
theorem mem_rstrip (s : List Char) (c : Char) (h : c ∈ rstrip s) : c ∈ s := by
  rw [rstrip] at h
  have h1 : c ∈ s.reverse.dropWhile isWs := List.mem_reverse.mp h
  have h2 : c ∈ s.reverse := (List.dropWhile_sublist _).mem h1
  exact List.mem_reverse.mp h2

/-- Helper: strip only removes characters. -/
theorem mem_pyStrip (s : List Char) (c : Char) (h : c ∈ pyStrip s) : c ∈ s :=
  mem_lstrip s c (mem_rstrip (lstrip s) c h)

/-- Helper: appending two strings concatenates their characters. -/
theorem data_append (a b : String) : (a ++ b).data = a.data ++ b.data := rfl

/-- Helper: the character list of a fence-wrapped string. -/
theorem fenceWrap_data (s : String) :
    (fenceWrap s).data = "```json".data ++ '\n' :: (s.data ++ '\n' :: "```".data) := by
  show (("```json\n" ++ s) ++ "\n```").data = _
  rw [data_append, data_append]
  have h1 : "```json\n".data = "```json".data ++ ['\n'] := rfl
  have h2 : "\n```".data = '\n' :: "```".data := rfl
  rw [h1, h2]
  simp [List.append_assoc]

/-- Helper: the fence-wrapped text starts and ends with a backtick, so
the outer strip is the identity on it. -/
theorem pyStrip_fenceWrap (s : String) :
    pyStrip (fenceWrap s).data = (fenceWrap s).data := by
  have hdecomp : (fenceWrap s).data
      = btick :: (("``json".data ++ '\n' :: (s.data ++ ['\n', btick, btick])) ++ [btick]) := by
    rw [fenceWrap_data]
    simp [btick, List.append_assoc]
  rw [hdecomp, pyStrip, lstrip_cons_of_not_ws _ _ (by decide),
    show btick :: (("``json".data ++ '\n' :: (s.data ++ ['\n', btick, btick])) ++ [btick])
      = (btick :: ("``json".data ++ '\n' :: (s.data ++ ['\n', btick, btick]))) ++ [btick]
      from rfl,
    rstrip_concat_of_not_ws _ _ (by decide)]

/-- Helper: joining with an empty first line prepends a newline. -/
theorem joinLines_nil_cons (L : List (List Char)) (hL : L ≠ []) :
    joinLines ([] :: L) = '\n' :: joinLines L := by
  cases L with
  | nil => exact absurd rfl hL
  | cons l ls => rw [joinLines]; rfl

/-- Helper: joining with an empty last line appends a newline. -/
theorem joinLines_concat_nil (L : List (List Char)) (hL : L ≠ []) :
    joinLines (L ++ [[]]) = joinLines L ++ ['\n'] := by
  induction L with
  | nil => exact absurd rfl hL
  | cons l ls ih =>
    cases ls with
    | nil => rfl
    | cons l2 ls2 =>
      rw [show (l :: l2 :: ls2) ++ [([] : List Char)] = l :: l2 :: (ls2 ++ [[]]) from rfl,
        joinLines,
        show l2 :: (ls2 ++ [([] : List Char)]) = (l2 :: ls2) ++ [[]] from rfl,
        ih (by simp), joinLines]
      simp

/-- Helper: the fence `re.sub` removes exactly the fence markers from a
backtick-free wrapped text. -/
theorem subFence_fenceWrap (s : String) (h : btick ∉ s.data) :
    subFence (fenceWrap s).data = '\n' :: (s.data ++ ['\n']) := by
  rw [fenceWrap_data, subFence, splitLines_append, splitLines_append]
  have h7 : splitLines "```json".data = ["```json".data] := by decide
  have h3 : splitLines "```".data = ["```".data] := by decide
  rw [h7, h3]
  have hf7 : fenceLine "```json".data = [] := by decide
  have hf3 : fenceLine "```".data = [] := by decide
  rw [List.map_append, List.map_append]
  simp only [List.map_cons, List.map_nil, hf7, hf3]
  have hmap : (splitLines s.data).map fenceLine = (splitLines s.data).map id := by
    refine List.map_congr_left (fun l hl => ?_)
    exact fenceLine_no_btick l (fun hc => h (mem_splitLines s.data l hl btick hc))
  rw [hmap, List.map_id]
  have hne : splitLines s.data ≠ [] := splitLines_ne_nil s.data
  have hne2 : splitLines s.data ++ [[]] ≠ [] := by
    intro hcon
    exact hne (List.append_eq_nil.mp hcon).1
  rw [show ([([] : List Char)] ++ (splitLines s.data ++ [[]]))
      = [] :: (splitLines s.data ++ [[]]) from rfl,
    joinLines_nil_cons _ hne2, joinLines_concat_nil _ hne, joinLines_splitLines]

/-- Helper: the text handed to the brace search is the same for a
fence-wrapped backtick-free input as for the raw input. -/
theorem parse_pipeline_fence (s : String) (h : btick ∉ s.data) :
    pyStrip (subFence (pyStrip (fenceWrap s).data)) = pyStrip s.data := by
  rw [pyStrip_fenceWrap, subFence_fenceWrap s h, pyStrip_cons_of_ws _ _ (by decide),
    pyStrip_concat_of_ws _ _ (by decide)]

/-- Helper: on a backtick-free input the fence stripping is the
identity and the double strip collapses. -/
theorem parse_pipeline_plain (s : String) (h : btick ∉ s.data) :
    pyStrip (subFence (pyStrip s.data)) = pyStrip s.data := by
  rw [subFence_no_btick _ (fun hc => h (mem_pyStrip _ _ hc)), pyStrip_idem]

/-- Helper: the first-index search fails on a missing character. -/
theorem firstIdx_none (c : Char) (l : List Char) (h : c ∉ l) : firstIdx c l = none := by
  induction l with
  | nil => rfl
  | cons a as ih =>
    rw [firstIdx,
      if_neg (by simp only [beq_iff_eq]; rintro rfl; exact h (List.mem_cons_self a as)),
      ih (fun hm => h (List.mem_cons_of_mem a hm))]
    rfl

/-- Helper: the brace-span search fails on a text with no opening
brace. -/
theorem extractBraces_none (t : List Char) (h : '\x7b' ∉ t) : extractBraces t = none := by
  rw [extractBraces, firstIdx_none _ _ h]

/-- C8: `parse_json` clamps each of the six sentiment values to [1,10]
and defaults missing keys to 1, so `\x7b"joy": -1, "sadness": 12\x7d`
yields joy 1, sadness 10 and 1 for the four missing keys; wrapping a
backtick-free input in a markdown code fence parses to the same result
as the unwrapped input; and an input containing no opening brace (hence
no JSON object) yields null. -/
theorem C8_parse_json_clamp_fence_null :
    parse_json "\x7b\"joy\": -1, \"sadness\": 12\x7d" =
      some { joy := 1, sadness := 10, anger := 1, fear := 1, love := 1, surprise := 1 } ∧
    (∀ s : String, btick ∉ s.data → parse_json (fenceWrap s) = parse_json s) ∧
    (∀ s : String, '\x7b' ∉ s.data → parse_json s = none) := by
  refine ⟨by decide, ?_, ?_⟩
  · intro s hs
    unfold parse_json
    rw [parse_pipeline_fence s hs, parse_pipeline_plain s hs]
  · intro s hs
    unfold parse_json
    have hb : '\x7b' ∉ pyStrip (subFence (pyStrip s.data)) := by
      intro hc
      rcases mem_subFence _ _ (mem_pyStrip _ _ hc) with h | h
      · exact absurd h (by decide)
      · exact hs (mem_pyStrip _ _ h)
    rw [parseCore, extractBraces_none _ hb]

/-- C8 witness: the fence equivalence and the null result evaluated at
concrete inputs (including the repository's own test inputs). -/
theorem C8_parse_json_witness :
    parse_json (fenceWrap "\x7b\"joy\": -1, \"sadness\": 12\x7d") =
      parse_json "\x7b\"joy\": -1, \"sadness\": 12\x7d" ∧
    parse_json "not json" = none :=
  ⟨C8_parse_json_clamp_fence_null.2.1 "\x7b\"joy\": -1, \"sadness\": 12\x7d" (by decide),
   C8_parse_json_clamp_fence_null.2.2 "not json" (by decide)⟩

/-- C9: `complete()` is idempotent in effect: after one call and after
two consecutive calls the status is COMPLETED with both lease fields
null, and the second call changes nothing except `updated_at`. -/
theorem C9_complete_idempotent (t : Task) (n1 n2 : Int) :
    (mark_completed t n1).status = Status.COMPLETED ∧
    (mark_completed t n1).lease_owner = none ∧
    (mark_completed t n1).lease_expires_at = none ∧
    (mark_completed (mark_completed t n1) n2).status = Status.COMPLETED ∧
    (mark_completed (mark_completed t n1) n2).lease_owner = none ∧
    (mark_completed (mark_completed t n1) n2).lease_expires_at = none ∧
    mark_completed (mark_completed t n1) n2 = { mark_completed t n1 with updated_at := n2 } := by
  simp [mark_completed]

/-- C10: `heartbeat` validates nothing: for every pre-state (any status,
any current lease owner, any expiry) it unconditionally installs the
calling worker as lease owner, refreshes the lease to now +
LEASE_MINUTES, stamps `updated_at`, and adds the increment to
`chunk_done`, while leaving status, range and attempts unchanged — so a
stale worker's heartbeat overwrites a newer valid lease, and lease
fields reappear on a COMPLETED task. -/
theorem C10_heartbeat_no_validation (t : Task) (w : String) (now leaseMin k : Int) :
    (heartbeat t w now leaseMin k).lease_owner = some w ∧
    (heartbeat t w now leaseMin k).lease_expires_at = some (now + leaseMin) ∧
    (heartbeat t w now leaseMin k).updated_at = now ∧
    (heartbeat t w now leaseMin k).chunk_done = t.chunk_done + k ∧
    (heartbeat t w now leaseMin k).status = t.status ∧
    (heartbeat t w now leaseMin k).start_idx = t.start_idx ∧
    (heartbeat t w now leaseMin k).end_idx = t.end_idx ∧
    (heartbeat t w now leaseMin k).attempts = t.attempts := by
  simp [heartbeat]

/-- C4 (code bug evaluation): with two prompts, base batch size 2, and a
pipe that exhausts memory on any batch of two prompts but succeeds on
any single prompt, `generate_with_adaptive_bs` halves 2 to 1 and
immediately re-raises — the sub-batch is never attempted at batch size
1, although that attempt would have succeeded.  By contrast, from base
size 4 the halved retry path works and no prompt is skipped. -/
theorem C4_oom_fatal_without_size_one_attempt :
    generateWithAdaptiveBS [0, 1]
      (fun b : List Nat => if 2 ≤ b.length then none else some b) 2 10
      = AdaptiveResult.raisedOOM ∧
    (fun b : List Nat => if 2 ≤ b.length then none else some b) [0] = some [0] ∧
    generateWithAdaptiveBS [0, 1, 2, 3]
      (fun b : List Nat => if 4 ≤ b.length then none else some b) 4 10
      = AdaptiveResult.ok [0, 1, 2, 3] := by
  refine ⟨by decide, by decide, by decide⟩

/-- C5 (code bug evaluation): a worker that re-claims the task
`[0, 39]` (chunk size 25) with a chunk object for `[0, 24]` already
present under its own blob prefix hits the fail-if-exists precondition
on the first chunk write; the exception is uncaught, so the task loop
aborts with no heartbeat and no completion, instead of treating the
collision as success-equivalent and continuing.  With no pre-existing
object the same loop runs to completion. -/
theorem C5_collision_uncaught_aborts :
    runTaskLoop "w2" 25 30 (fun j => (j : Int)) 39 10 0
      { status := Status.IN_PROGRESS, start_idx := 0, end_idx := 39, chunk_total := 2,
        chunk_done := 0, lease_owner := some "w2", lease_expires_at := some 30,
        attempts := 1, updated_at := 0 }
      [(0, 24)] 0
      = LoopOutcome.collision
          { status := Status.IN_PROGRESS, start_idx := 0, end_idx := 39, chunk_total := 2,
            chunk_done := 0, lease_owner := some "w2", lease_expires_at := some 30,
            attempts := 1, updated_at := 0 }
          [(0, 24)] (0, 24) ∧
    runTaskLoop "w2" 25 30 (fun j => (j : Int)) 39 10 0
      { status := Status.IN_PROGRESS, start_idx := 0, end_idx := 39, chunk_total := 2,
        chunk_done := 0, lease_owner := some "w2", lease_expires_at := some 30,
        attempts := 1, updated_at := 0 }
      [] 0
      = LoopOutcome.completed
          { status := Status.COMPLETED, start_idx := 0, end_idx := 39, chunk_total := 2,
            chunk_done := 40, lease_owner := none, lease_expires_at := none,
            attempts := 1, updated_at := 2 }
          [(25, 39), (0, 24)] := by
  refine ⟨by decide, by decide⟩

end RedditMeter
